import Mathlib

/-!
Verification of the interactive drawing engine of the `fing` sketchpad.

The development shallowly embeds the pure core of `src/index.tsx` (two
closely related product variants: a lasso-erase variant and a hold-erase
variant).  JavaScript numbers are modelled as rationals (`ℚ`); the
`reduce` accumulators that start from `Infinity` / `-Infinity` are
modelled with `WithTop ℚ` / `WithBot ℚ` (and `WithBot ℕ` for the
intersection-count maximum).  React state relevant to the claims is
collected in `PageState`; each event handler becomes a state-transforming
function.
-/

/-- A recorded point: canvas-space coordinates, timestamp relative to the
session origin, and pressure (interface `Point` in `index.tsx`). -/
structure Point where
  x : ℚ
  y : ℚ
  t : ℚ
  p : ℚ
deriving DecidableEq, Repr

/-- `const viewportZoom = 10` (lasso-erase variant). -/
def viewportZoom : ℚ := 10

/-- `const gridSize = 32 * viewportZoom`. -/
def gridSize : ℚ := 32 * viewportZoom

/-- `const tileSize = 4 * gridSize`. -/
def tileSize : ℚ := 4 * gridSize

/-- `pathTolineSegments`: consecutive point pairs of a path
(`path.slice(0, -1).map((point, i) => [point, path[i + 1]])`). -/
def pathTolineSegments (path : List Point) : List (Point × Point) :=
  path.zip path.tail

/-- The proper-crossing test of `handlePointerUp` (lasso-erase variant,
the condition inside the nested segment loops), verbatim from the source:
both sign products must be strictly negative. -/
def segmentsIntersect (a b : Point × Point) : Bool :=
  decide
    (((a.1.x - a.2.x) * (b.1.y - a.1.y) + (a.1.y - a.2.y) * (a.1.x - b.1.x)) *
        ((a.1.x - a.2.x) * (b.2.y - a.1.y) + (a.1.y - a.2.y) * (a.1.x - b.2.x)) < 0) &&
  decide
    (((b.1.x - b.2.x) * (a.1.y - b.1.y) + (b.1.y - b.2.y) * (b.1.x - a.1.x)) *
        ((b.1.x - b.2.x) * (a.2.y - b.1.y) + (b.1.y - b.2.y) * (b.1.x - a.2.x)) < 0)

/-- The z-component of the cross product of planar vectors `(ux, uy)` and
`(vx, vy)`. -/
def crossZ (ux uy vx vy : ℚ) : ℚ := ux * vy - uy * vx

/-- Two scalars have strictly opposite signs. -/
def oppositeStrictSigns (u v : ℚ) : Prop := (0 < u ∧ v < 0) ∨ (u < 0 ∧ 0 < v)

/-- Specification-side proper-crossing predicate, written from the spec
text of §4.3: segments `A = (a0, a1)` and `B = (b0, b1)` cross iff the
cross products of A's direction with the vectors (from `a0`) to `b0` and
to `b1` have strictly opposite signs, and symmetrically for B against A's
endpoints. -/
def properCrossingSpec (a b : Point × Point) : Prop :=
  oppositeStrictSigns
      (crossZ (a.2.x - a.1.x) (a.2.y - a.1.y) (b.1.x - a.1.x) (b.1.y - a.1.y))
      (crossZ (a.2.x - a.1.x) (a.2.y - a.1.y) (b.2.x - a.1.x) (b.2.y - a.1.y))
  ∧ oppositeStrictSigns
      (crossZ (b.2.x - b.1.x) (b.2.y - b.1.y) (a.1.x - b.1.x) (a.1.y - b.1.y))
      (crossZ (b.2.x - b.1.x) (b.2.y - b.1.y) (a.2.x - b.1.x) (a.2.y - b.1.y))

/-- C3: the segment-intersection predicate used by the lasso eraser counts
a pair of segments as crossing iff the endpoints of each lie strictly on
opposite sides of the line through the other (both cross-product sign
conditions strict); collinear or touching configurations (any cross
product zero) are never counted, since a zero factor makes the sign
product zero rather than negative. -/
theorem segment_crossing_matches_spec (a b : Point × Point) :
    segmentsIntersect a b = true ↔ properCrossingSpec a b := by
  have e1 :
      ((a.1.x - a.2.x) * (b.1.y - a.1.y) + (a.1.y - a.2.y) * (a.1.x - b.1.x)) *
        ((a.1.x - a.2.x) * (b.2.y - a.1.y) + (a.1.y - a.2.y) * (a.1.x - b.2.x)) =
      (crossZ (a.2.x - a.1.x) (a.2.y - a.1.y) (b.1.x - a.1.x) (b.1.y - a.1.y)) *
        (crossZ (a.2.x - a.1.x) (a.2.y - a.1.y) (b.2.x - a.1.x) (b.2.y - a.1.y)) := by
    unfold crossZ; ring
  have e2 :
      ((b.1.x - b.2.x) * (a.1.y - b.1.y) + (b.1.y - b.2.y) * (b.1.x - a.1.x)) *
        ((b.1.x - b.2.x) * (a.2.y - b.1.y) + (b.1.y - b.2.y) * (b.1.x - a.2.x)) =
      (crossZ (b.2.x - b.1.x) (b.2.y - b.1.y) (a.1.x - b.1.x) (a.1.y - b.1.y)) *
        (crossZ (b.2.x - b.1.x) (b.2.y - b.1.y) (a.2.x - b.1.x) (a.2.y - b.1.y)) := by
    unfold crossZ; ring
  simp only [segmentsIntersect, Bool.and_eq_true, decide_eq_true_eq,
    properCrossingSpec, oppositeStrictSigns]
  rw [e1, e2, mul_neg_iff, mul_neg_iff]

/-- The count of properly-crossing segment pairs between one existing path
and the finished stroke's segments: the nested `for`-loops of
`handlePointerUp` incrementing `intersectedCount`. -/
def intersectedCount (existingPath : List Point)
    (currentLineSegments : List (Point × Point)) : ℕ :=
  (pathTolineSegments existingPath).foldl
    (fun count a =>
      currentLineSegments.foldl
        (fun count b => if segmentsIntersect a b then count + 1 else count) count)
    0

/-- `existingPaths.reduce((m, p) => Math.max(m, intersectedCount p), -Infinity)`:
the maximum per-existing-stroke crossing count, starting from `-Infinity`
(modelled by `⊥ : WithBot ℕ`). -/
def maxIntersectedCount (existingPaths : List (List Point))
    (currentLineSegments : List (Point × Point)) : WithBot ℕ :=
  existingPaths.foldl
    (fun m existingPath =>
      max m ((intersectedCount existingPath currentLineSegments : ℕ) : WithBot ℕ))
    ⊥

/-- `currentPath.reduce((min, point) => Math.min(min, point.x), Infinity)`. -/
def bboxMinX (path : List Point) : WithTop ℚ :=
  path.foldl (fun m pt => min m ((pt.x : ℚ) : WithTop ℚ)) ⊤

/-- `currentPath.reduce((max, point) => Math.max(max, point.x), -Infinity)`. -/
def bboxMaxX (path : List Point) : WithBot ℚ :=
  path.foldl (fun m pt => max m ((pt.x : ℚ) : WithBot ℚ)) ⊥

/-- `currentPath.reduce((min, point) => Math.min(min, point.y), Infinity)`. -/
def bboxMinY (path : List Point) : WithTop ℚ :=
  path.foldl (fun m pt => min m ((pt.y : ℚ) : WithTop ℚ)) ⊤

/-- `currentPath.reduce((max, point) => Math.max(max, point.y), -Infinity)`. -/
def bboxMaxY (path : List Point) : WithBot ℚ :=
  path.foldl (fun m pt => max m ((pt.y : ℚ) : WithBot ℚ)) ⊥

/-- `existingPath.reduce((sum, point) => sum + point.x, 0) / existingPath.length`. -/
def centerX (path : List Point) : ℚ :=
  path.foldl (fun sum pt => sum + pt.x) 0 / (path.length : ℚ)

/-- `existingPath.reduce((sum, point) => sum + point.y, 0) / existingPath.length`. -/
def centerY (path : List Point) : ℚ :=
  path.foldl (fun sum pt => sum + pt.y) 0 / (path.length : ℚ)

/-- The filter predicate of the erase branch of `handlePointerUp`:
`centerX < minX || centerX >= maxX || centerY < minY || centerY >= maxY`
(an existing path is kept when its centroid falls outside the finished
stroke's bounding box). -/
def keptByLassoErase (currentPath existingPath : List Point) : Bool :=
  decide (((centerX existingPath : ℚ) : WithTop ℚ) < bboxMinX currentPath) ||
  decide (bboxMaxX currentPath ≤ ((centerX existingPath : ℚ) : WithBot ℚ)) ||
  decide (((centerY existingPath : ℚ) : WithTop ℚ) < bboxMinY currentPath) ||
  decide (bboxMaxY currentPath ≤ ((centerY existingPath : ℚ) : WithBot ℚ))

/-- `existingPaths.filter(...)`: the strokes surviving a lasso erase. -/
def lassoEraseSurvivors (currentPath : List Point)
    (existingPaths : List (List Point)) : List (List Point) :=
  existingPaths.filter (keptByLassoErase currentPath)

/-- The React state of `Page` relevant to the verified claims:
`canvasWidth`, `canvasHeight`, `paths` and `pointerID`. -/
structure PageState where
  canvasWidth : ℚ
  canvasHeight : ℚ
  paths : List (List Point)
  pointerID : Option ℕ
deriving DecidableEq, Repr

/-- `handlePointerDown`: ignored when a pointer is already active
(`typeof pointerID === "number"`); otherwise appends a new singleton
stroke and records the pointer id. -/
def handlePointerDown (s : PageState) (pointerId : ℕ) (point : Point) : PageState :=
  if s.pointerID.isSome then s
  else { s with paths := s.paths ++ [[point]], pointerID := some pointerId }

/-- `handlePointerUp` (lasso-erase variant): ignored unless the event's
pointer is the active one; otherwise the finished stroke
`currentPath = [...(paths.at(-1) ?? []), currentPoint]` either commits
(maximum crossing count `< 8`) or triggers the centroid-in-bounding-box
erase, and the active pointer is cleared. -/
def handlePointerUp (s : PageState) (pointerId : ℕ) (currentPoint : Point) : PageState :=
  if s.pointerID ≠ some pointerId then s
  else
    let currentPath := s.paths.getLastD [] ++ [currentPoint]
    let currentLineSegments := pathTolineSegments currentPath
    let existingPaths := s.paths.dropLast
    if maxIntersectedCount existingPaths currentLineSegments < ((8 : ℕ) : WithBot ℕ) then
      { s with paths := existingPaths ++ [currentPath], pointerID := none }
    else
      { s with paths := lassoEraseSurvivors currentPath existingPaths, pointerID := none }

/-- `handlePointerCancel`: discards the in-progress stroke and clears the
active pointer when the event's pointer is the active one. -/
def handlePointerCancel (s : PageState) (pointerId : ℕ) : PageState :=
  if s.pointerID ≠ some pointerId then s
  else { s with paths := s.paths.dropLast, pointerID := none }

/-- Folding a `max` accumulator stays below a bound iff the seed and every
contribution do. -/
theorem foldl_max_lt_iff {α : Type} (f : α → WithBot ℕ) (l : List α)
    (init c : WithBot ℕ) :
    l.foldl (fun m x => max m (f x)) init < c ↔
      init < c ∧ ∀ x ∈ l, f x < c := by
  induction l generalizing init with
  | nil => simp
  | cons y ys ih =>
    simp only [List.foldl_cons, ih, max_lt_iff, List.mem_cons]
    constructor
    · rintro ⟨⟨h1, h2⟩, h3⟩
      exact ⟨h1, fun x hx => hx.elim (fun he => he ▸ h2) (h3 x)⟩
    · rintro ⟨h1, h2⟩
      exact ⟨⟨h1, h2 y (Or.inl rfl)⟩, fun x hx => h2 x (Or.inr hx)⟩

/-- The maximum crossing count is below the threshold iff every existing
stroke's count is. -/
theorem maxIntersectedCount_lt_iff (existingPaths : List (List Point))
    (segs : List (Point × Point)) (c : ℕ) :
    maxIntersectedCount existingPaths segs < ((c : ℕ) : WithBot ℕ) ↔
      ∀ ep ∈ existingPaths, intersectedCount ep segs < c := by
  unfold maxIntersectedCount
  rw [foldl_max_lt_iff]
  constructor
  · rintro ⟨-, h⟩ ep hep
    exact_mod_cast h ep hep
  · intro h
    refine ⟨WithBot.bot_lt_coe c, fun ep hep => ?_⟩
    exact_mod_cast h ep hep

/-- C1: on pointer-up the erase decision uses the maximum
per-existing-stroke crossing count, not the cumulative sum.  If no single
existing stroke reaches 8 crossings against the finished stroke (state
`s₁`), the finished stroke is committed and every existing stroke is kept;
if some single existing stroke reaches 8 (state `s₂`), erase mode is
triggered (the result is the centroid-in-bounding-box filter of the
existing strokes). -/
theorem lasso_erase_threshold_is_per_stroke_max
    (s₁ s₂ : PageState) (p₁ p₂ : ℕ) (c₁ c₂ : Point)
    (hid₁ : s₁.pointerID = some p₁) (hid₂ : s₂.pointerID = some p₂)
    (hlt : ∀ ep ∈ s₁.paths.dropLast,
      intersectedCount ep (pathTolineSegments (s₁.paths.getLastD [] ++ [c₁])) < 8)
    (hge : ∃ ep ∈ s₂.paths.dropLast,
      8 ≤ intersectedCount ep (pathTolineSegments (s₂.paths.getLastD [] ++ [c₂]))) :
    (handlePointerUp s₁ p₁ c₁).paths
        = s₁.paths.dropLast ++ [s₁.paths.getLastD [] ++ [c₁]]
      ∧ (handlePointerUp s₂ p₂ c₂).paths
        = lassoEraseSurvivors (s₂.paths.getLastD [] ++ [c₂]) s₂.paths.dropLast := by
  constructor
  · simp only [handlePointerUp]
    rw [if_neg (by simp [hid₁]), if_pos ((maxIntersectedCount_lt_iff _ _ 8).mpr hlt)]
  · simp only [handlePointerUp]
    rw [if_neg (by simp [hid₂]), if_neg ?_]
    intro hmax
    obtain ⟨ep, hep, h8⟩ := hge
    exact absurd ((maxIntersectedCount_lt_iff _ _ 8).mp hmax ep hep) (not_lt.mpr h8)

/-- C2: when the lasso threshold is met, the new drawing is exactly the
filter of the existing strokes (so the finished stroke is not added), and
an existing stroke is removed iff its centroid `(centerX, centerY)` lies
inside the finished stroke's axis-aligned bounding box under the
half-open test `minX ≤ cx < maxX` and `minY ≤ cy < maxY`. -/
theorem lasso_erase_centroid_in_box
    (s : PageState) (pid : ℕ) (cpt : Point) (ep : List Point)
    (hid : s.pointerID = some pid)
    (hge : ∃ q ∈ s.paths.dropLast,
      8 ≤ intersectedCount q (pathTolineSegments (s.paths.getLastD [] ++ [cpt])))
    (hep : ep ∈ s.paths.dropLast) :
    (handlePointerUp s pid cpt).paths
        = lassoEraseSurvivors (s.paths.getLastD [] ++ [cpt]) s.paths.dropLast
      ∧ (ep ∉ (handlePointerUp s pid cpt).paths ↔
          (bboxMinX (s.paths.getLastD [] ++ [cpt]) ≤ ((centerX ep : ℚ) : WithTop ℚ)
            ∧ ((centerX ep : ℚ) : WithBot ℚ) < bboxMaxX (s.paths.getLastD [] ++ [cpt])
            ∧ bboxMinY (s.paths.getLastD [] ++ [cpt]) ≤ ((centerY ep : ℚ) : WithTop ℚ)
            ∧ ((centerY ep : ℚ) : WithBot ℚ) < bboxMaxY (s.paths.getLastD [] ++ [cpt]))) := by
  have hpaths : (handlePointerUp s pid cpt).paths
      = lassoEraseSurvivors (s.paths.getLastD [] ++ [cpt]) s.paths.dropLast := by
    simp only [handlePointerUp]
    rw [if_neg (by simp [hid]), if_neg ?_]
    intro hmax
    obtain ⟨q, hq, h8⟩ := hge
    exact absurd ((maxIntersectedCount_lt_iff _ _ 8).mp hmax q hq) (not_lt.mpr h8)
  refine ⟨hpaths, ?_⟩
  rw [hpaths]
  simp only [lassoEraseSurvivors, List.mem_filter, hep, true_and,
    keptByLassoErase, Bool.or_eq_true, decide_eq_true_eq, not_or, not_lt, not_le]
  tauto

/-- A zigzag stroke crossing the horizontal axis five times. -/
def zigzagFive : List Point :=
  [⟨5,1,0,1⟩, ⟨10,-1,1,1⟩, ⟨15,1,2,1⟩, ⟨20,-1,3,1⟩, ⟨25,1,4,1⟩, ⟨30,-1,5,1⟩]

/-- A second five-crossing zigzag, shifted right. -/
def zigzagFiveShifted : List Point :=
  [⟨55,1,0,1⟩, ⟨60,-1,1,1⟩, ⟨65,1,2,1⟩, ⟨70,-1,3,1⟩, ⟨75,1,4,1⟩, ⟨80,-1,5,1⟩]

/-- A zigzag stroke crossing the horizontal axis eight times. -/
def zigzagEight : List Point :=
  [⟨5,1,0,1⟩, ⟨10,-1,1,1⟩, ⟨15,1,2,1⟩, ⟨20,-1,3,1⟩, ⟨25,1,4,1⟩, ⟨30,-1,5,1⟩,
   ⟨35,1,6,1⟩, ⟨40,-1,7,1⟩, ⟨45,1,8,1⟩]

/-- State with two existing five-crossing strokes and an in-progress
stroke starting at the origin. -/
def fiveFiveState : PageState :=
  ⟨0, 0, [zigzagFive, zigzagFiveShifted, [⟨0,0,6,1⟩]], some 7⟩

/-- State with one existing eight-crossing stroke and an in-progress
stroke starting at the origin. -/
def eightCrossState : PageState :=
  ⟨0, 0, [zigzagEight, [⟨0,0,9,1⟩]], some 3⟩

/-- Witness for C1: a finished straight line crossing stroke A five times
and stroke B five times (ten in total) commits normally, while a line
crossing a single stroke eight times triggers erase mode. -/
theorem lasso_erase_threshold_witness :
    (handlePointerUp fiveFiveState 7 ⟨100,0,7,1⟩).paths
        = fiveFiveState.paths.dropLast
          ++ [fiveFiveState.paths.getLastD [] ++ [⟨100,0,7,1⟩]]
      ∧ (handlePointerUp eightCrossState 3 ⟨100,0,10,1⟩).paths
        = lassoEraseSurvivors (eightCrossState.paths.getLastD [] ++ [⟨100,0,10,1⟩])
            eightCrossState.paths.dropLast :=
  lasso_erase_threshold_is_per_stroke_max fiveFiveState eightCrossState 7 3
    ⟨100,0,7,1⟩ ⟨100,0,10,1⟩ rfl rfl
    (by
      simp only [fiveFiveState, List.dropLast, List.getLastD, List.forall_mem_cons]
      norm_num [intersectedCount, pathTolineSegments, segmentsIntersect,
        zigzagFive, zigzagFiveShifted])
    (by
      refine ⟨zigzagEight, by simp [eightCrossState, List.dropLast], ?_⟩
      norm_num [intersectedCount, pathTolineSegments, segmentsIntersect,
        zigzagEight, eightCrossState, List.getLastD])

/-- An existing stroke far away from the erase loop. -/
def farStroke : List Point := [⟨500,500,0,1⟩, ⟨501,500,1,1⟩]

/-- The in-progress erasing loop (closed on pointer-up). -/
def loopStart : List Point := [⟨0,0,2,1⟩, ⟨100,0,3,1⟩, ⟨100,50,4,1⟩]

/-- State with an eight-crossing zigzag, a far-away stroke, and the
in-progress erase loop. -/
def loopState : PageState := ⟨0, 0, [zigzagEight, farStroke, loopStart], some 5⟩

/-- Witness for C2: the erase loop removes the zigzag (centroid `(25, 1/9)`
inside the loop's bounding box `[0,100] × [0,50]`) and keeps the far-away
stroke; the membership characterisation is instantiated at the zigzag. -/
theorem lasso_erase_centroid_in_box_witness :
    (handlePointerUp loopState 5 ⟨0,50,5,1⟩).paths
        = lassoEraseSurvivors (loopState.paths.getLastD [] ++ [⟨0,50,5,1⟩])
            loopState.paths.dropLast
      ∧ (zigzagEight ∉ (handlePointerUp loopState 5 ⟨0,50,5,1⟩).paths ↔
          (bboxMinX (loopState.paths.getLastD [] ++ [⟨0,50,5,1⟩])
              ≤ ((centerX zigzagEight : ℚ) : WithTop ℚ)
            ∧ ((centerX zigzagEight : ℚ) : WithBot ℚ)
              < bboxMaxX (loopState.paths.getLastD [] ++ [⟨0,50,5,1⟩])
            ∧ bboxMinY (loopState.paths.getLastD [] ++ [⟨0,50,5,1⟩])
              ≤ ((centerY zigzagEight : ℚ) : WithTop ℚ)
            ∧ ((centerY zigzagEight : ℚ) : WithBot ℚ)
              < bboxMaxY (loopState.paths.getLastD [] ++ [⟨0,50,5,1⟩]))) :=
  lasso_erase_centroid_in_box loopState 5 ⟨0,50,5,1⟩ zigzagEight rfl
    (⟨zigzagEight, by simp [loopState, List.dropLast],
      by
        norm_num [intersectedCount, pathTolineSegments, segmentsIntersect,
          zigzagEight, loopState, loopStart, List.getLastD]⟩)
    (by simp [loopState, List.dropLast])

/-- Folding any run of pointer-down events over a state with an active
pointer leaves the state unchanged. -/
theorem foldl_handlePointerDown_active (events : List (ℕ × Point)) (s : PageState)
    (h : s.pointerID.isSome = true) :
    events.foldl (fun st e => handlePointerDown st e.1 e.2) s = s := by
  induction events with
  | nil => rfl
  | cons e es ih =>
    rw [List.foldl_cons]
    have he : handlePointerDown s e.1 e.2 = s := by
      rw [handlePointerDown, if_pos h]
    rw [he]
    exact ih

/-- C4: at most one pointer is active at any time.  A pointer-down while a
pointer is active is ignored entirely (state `s`), and a whole run of
pointer-downs starting from an idle state appends exactly one new
singleton stroke — the one from the first accepted pointer-down — and
activates that pointer (state `sIdle`); every later pointer-down of the
run is ignored. -/
theorem single_active_pointer
    (s sIdle : PageState) (pid pid₀ : ℕ) (pt pt₀ : Point) (rest : List (ℕ × Point))
    (hactive : s.pointerID.isSome = true) (hidle : sIdle.pointerID = none) :
    handlePointerDown s pid pt = s
      ∧ ((pid₀, pt₀) :: rest).foldl (fun st e => handlePointerDown st e.1 e.2) sIdle
        = { sIdle with paths := sIdle.paths ++ [[pt₀]], pointerID := some pid₀ } := by
  refine ⟨by rw [handlePointerDown, if_pos hactive], ?_⟩
  rw [List.foldl_cons]
  have h1 : handlePointerDown sIdle pid₀ pt₀
      = { sIdle with paths := sIdle.paths ++ [[pt₀]], pointerID := some pid₀ } := by
    rw [handlePointerDown, if_neg (by rw [hidle]; simp)]
  rw [h1]
  exact foldl_handlePointerDown_active rest _ rfl

/-- Witness for C4: a pointer-down with id 2 while pointer 1 draws is a
no-op, and a run of three pointer-downs with distinct ids from an idle
state adds exactly one stroke, the one of the first event. -/
theorem single_active_pointer_witness :
    handlePointerDown ⟨0, 0, [[⟨1,1,0,1⟩]], some 1⟩ 2 ⟨2,2,1,1⟩
        = ⟨0, 0, [[⟨1,1,0,1⟩]], some 1⟩
      ∧ ((1, (⟨3,3,0,1⟩ : Point)) :: [(2, ⟨4,4,1,1⟩), (3, ⟨5,5,2,1⟩)]).foldl
            (fun st e => handlePointerDown st e.1 e.2) ⟨0, 0, [], none⟩
        = { (⟨0, 0, [], none⟩ : PageState) with
            paths := ([] : List (List Point)) ++ [[⟨3,3,0,1⟩]], pointerID := some 1 } :=
  single_active_pointer ⟨0, 0, [[⟨1,1,0,1⟩]], some 1⟩ ⟨0, 0, [], none⟩ 2 1
    ⟨2,2,1,1⟩ ⟨3,3,0,1⟩ [(2, ⟨4,4,1,1⟩), (3, ⟨5,5,2,1⟩)] rfl rfl

/-- The `topObserver` growth step: `canvasHeight` grows by one tile and
every point's `y` is shifted by `+tileSize` (the `setTimeout` body of the
top intersection observer). -/
def growTop (s : PageState) : PageState :=
  { s with
    canvasHeight := s.canvasHeight + tileSize,
    paths := s.paths.map (fun prevPath =>
      prevPath.map (fun prevPoint => { prevPoint with y := prevPoint.y + tileSize })) }

/-- The `bottomObserver` growth step: `canvasHeight` grows by one tile and
paths are untouched. -/
def growBottom (s : PageState) : PageState :=
  { s with canvasHeight := s.canvasHeight + tileSize }

/-- Default point used by the indexed access of the growth theorem. -/
def originPoint : Point := ⟨0, 0, 0, 0⟩

/-- `getD` of a mapped list at an in-range index. -/
theorem getD_map_of_lt {α β : Type} (f : α → β) (l : List α) (i : ℕ) (d : β) (d2 : α)
    (h : i < l.length) : (l.map f).getD i d = f (l.getD i d2) := by
  rw [List.getD_eq_getElem?_getD, List.getElem?_map, List.getElem?_eq_getElem h,
    List.getD_eq_getElem l d2 h]
  rfl

/-- C5: a top-edge growth trigger increases `canvasHeight` by exactly one
tile and shifts every point's `y` by `+tileSize`, leaving `x`, `t` and `p`
unchanged; a bottom-edge trigger increases `canvasHeight` by one tile and
leaves every point unchanged.  In particular the canvas never shrinks and
each growth step is an exact tile-size increment. -/
theorem tile_growth (s : PageState) (i j : ℕ)
    (hi : i < s.paths.length) (hj : j < (s.paths.getD i []).length) :
      (growTop s).canvasHeight = s.canvasHeight + tileSize
    ∧ (growBottom s).canvasHeight = s.canvasHeight + tileSize
    ∧ (growBottom s).paths = s.paths
    ∧ (growTop s).paths.length = s.paths.length
    ∧ ((growTop s).paths.getD i []).length = (s.paths.getD i []).length
    ∧ (((growTop s).paths.getD i []).getD j originPoint).x
        = ((s.paths.getD i []).getD j originPoint).x
    ∧ (((growTop s).paths.getD i []).getD j originPoint).y
        = ((s.paths.getD i []).getD j originPoint).y + tileSize
    ∧ (((growTop s).paths.getD i []).getD j originPoint).t
        = ((s.paths.getD i []).getD j originPoint).t
    ∧ (((growTop s).paths.getD i []).getD j originPoint).p
        = ((s.paths.getD i []).getD j originPoint).p
    ∧ s.canvasHeight ≤ (growTop s).canvasHeight
    ∧ s.canvasHeight ≤ (growBottom s).canvasHeight := by
  have htile : (0 : ℚ) ≤ tileSize := by norm_num [tileSize, gridSize, viewportZoom]
  have houter : (growTop s).paths.getD i []
      = (s.paths.getD i []).map
          (fun prevPoint => { prevPoint with y := prevPoint.y + tileSize }) := by
    have := getD_map_of_lt
      (fun prevPath => prevPath.map
        (fun prevPoint : Point => { prevPoint with y := prevPoint.y + tileSize }))
      s.paths i [] [] hi
    simpa [growTop] using this
  have hinner : ((growTop s).paths.getD i []).getD j originPoint
      = { (s.paths.getD i []).getD j originPoint with
          y := ((s.paths.getD i []).getD j originPoint).y + tileSize } := by
    rw [houter]
    exact getD_map_of_lt _ _ j originPoint originPoint hj
  refine ⟨rfl, rfl, rfl, by simp [growTop], by rw [houter]; simp,
    by rw [hinner], by rw [hinner], by rw [hinner], by rw [hinner],
    by simpa [growTop] using htile, by simpa [growBottom] using htile⟩

/-- Witness for C5: growth at a one-stroke, one-point state. -/
theorem tile_growth_witness :
      (growTop ⟨0, 0, [[⟨1,2,3,4⟩]], none⟩).canvasHeight = 0 + tileSize
    ∧ (growBottom ⟨0, 0, [[⟨1,2,3,4⟩]], none⟩).canvasHeight = 0 + tileSize
    ∧ (growBottom ⟨0, 0, [[⟨1,2,3,4⟩]], none⟩).paths = [[⟨1,2,3,4⟩]]
    ∧ (growTop ⟨0, 0, [[⟨1,2,3,4⟩]], none⟩).paths.length = [[(⟨1,2,3,4⟩ : Point)]].length
    ∧ ((growTop ⟨0, 0, [[⟨1,2,3,4⟩]], none⟩).paths.getD 0 []).length
        = ([[(⟨1,2,3,4⟩ : Point)]].getD 0 []).length
    ∧ (((growTop ⟨0, 0, [[⟨1,2,3,4⟩]], none⟩).paths.getD 0 []).getD 0 originPoint).x
        = (([[(⟨1,2,3,4⟩ : Point)]].getD 0 []).getD 0 originPoint).x
    ∧ (((growTop ⟨0, 0, [[⟨1,2,3,4⟩]], none⟩).paths.getD 0 []).getD 0 originPoint).y
        = (([[(⟨1,2,3,4⟩ : Point)]].getD 0 []).getD 0 originPoint).y + tileSize
    ∧ (((growTop ⟨0, 0, [[⟨1,2,3,4⟩]], none⟩).paths.getD 0 []).getD 0 originPoint).t
        = (([[(⟨1,2,3,4⟩ : Point)]].getD 0 []).getD 0 originPoint).t
    ∧ (((growTop ⟨0, 0, [[⟨1,2,3,4⟩]], none⟩).paths.getD 0 []).getD 0 originPoint).p
        = (([[(⟨1,2,3,4⟩ : Point)]].getD 0 []).getD 0 originPoint).p
    ∧ (0 : ℚ) ≤ (growTop ⟨0, 0, [[⟨1,2,3,4⟩]], none⟩).canvasHeight
    ∧ (0 : ℚ) ≤ (growBottom ⟨0, 0, [[⟨1,2,3,4⟩]], none⟩).canvasHeight :=
  tile_growth ⟨0, 0, [[⟨1,2,3,4⟩]], none⟩ 0 0 (by decide) (by decide)

/-- The paths update of the delay-timer callback in `Path.handlePointerDown`
(hold-erase variant):
`[...prevPaths.slice(0, index), ...prevPaths.slice(index + 1, -1)]` — it
drops the stroke at `index` and the final (in-progress) stroke. -/
def holdEraseOnTimeout (index : ℕ) (prevPaths : List (List Point)) : List (List Point) :=
  prevPaths.take index ++ (prevPaths.drop (index + 1)).dropLast

/-- The whole timer callback: update the paths and clear the active
pointer (`dispatchPointerID(undefined)`). -/
def holdEraseTimerAction (index : ℕ) (s : PageState) : PageState :=
  { s with paths := holdEraseOnTimeout index s.paths, pointerID := none }

/-- C6: in the hold-erase variant, when the long-press timer on the
hit-region of committed stroke `i` fires uninterrupted, exactly that
stroke is removed from the committed drawing, every other committed
stroke remains present, and the active-pointer tracking is cleared.  At
timer time the paths are `committed ++ [inProgress]`, because the press
that started the timer also bubbled to the canvas `handlePointerDown`
and appended the in-progress singleton stroke; the callback's
`slice(index + 1, -1)` discards that in-progress stroke together with
stroke `i`. -/
theorem hold_erase_removes_exactly_pressed
    (committed : List (List Point)) (inProgress : List Point) (i j k : ℕ) (w h : ℚ)
    (hi : i < committed.length) (hj : j < committed.length) (hji : j ≠ i) :
      (holdEraseTimerAction i ⟨w, h, committed ++ [inProgress], some k⟩).paths
        = committed.eraseIdx i
    ∧ (holdEraseTimerAction i ⟨w, h, committed ++ [inProgress], some k⟩).pointerID = none
    ∧ ((holdEraseTimerAction i ⟨w, h, committed ++ [inProgress], some k⟩).paths).length + 1
        = committed.length
    ∧ committed.getD j []
        ∈ (holdEraseTimerAction i ⟨w, h, committed ++ [inProgress], some k⟩).paths := by
  have hpaths : (holdEraseTimerAction i ⟨w, h, committed ++ [inProgress], some k⟩).paths
      = committed.eraseIdx i := by
    show holdEraseOnTimeout i (committed ++ [inProgress]) = committed.eraseIdx i
    rw [holdEraseOnTimeout, List.take_append_of_le_length hi.le,
      List.drop_append_of_le_length hi, List.dropLast_concat,
      List.eraseIdx_eq_take_drop_succ]
  have hlen : (committed.eraseIdx i).length + 1 = committed.length := by
    rw [List.length_eraseIdx_of_lt hi]
    omega
  refine ⟨hpaths, rfl, by rw [hpaths]; exact hlen, ?_⟩
  rw [hpaths, List.eraseIdx_eq_take_drop_succ, List.getD_eq_getElem committed [] hj]
  rcases Nat.lt_or_ge j i with hlt | hge
  · apply List.mem_append_left
    have hjt : j < (committed.take i).length := by
      simp [List.length_take]
      omega
    have : (committed.take i)[j] = committed[j] := List.getElem_take committed
    exact this ▸ List.getElem_mem hjt
  · have hgt : i + 1 ≤ j := by omega
    apply List.mem_append_right
    have hjd : j - (i + 1) < (committed.drop (i + 1)).length := by
      simp [List.length_drop]
      omega
    refine List.mem_iff_getElem.mpr ⟨j - (i + 1), hjd, ?_⟩
    rw [List.getElem_drop]
    congr 1
    omega

/-- Witness for C6: with two committed strokes and an in-progress press
stroke, the timer at index 0 removes exactly the first committed stroke,
keeps the second, and clears the pointer. -/
theorem hold_erase_removes_exactly_pressed_witness :
      (holdEraseTimerAction 0
          ⟨0, 0, [[⟨1,1,0,1⟩], [⟨2,2,1,1⟩]] ++ [[⟨3,3,2,1⟩]], some 4⟩).paths
        = [[(⟨1,1,0,1⟩ : Point)], [⟨2,2,1,1⟩]].eraseIdx 0
    ∧ (holdEraseTimerAction 0
          ⟨0, 0, [[⟨1,1,0,1⟩], [⟨2,2,1,1⟩]] ++ [[⟨3,3,2,1⟩]], some 4⟩).pointerID = none
    ∧ ((holdEraseTimerAction 0
          ⟨0, 0, [[⟨1,1,0,1⟩], [⟨2,2,1,1⟩]] ++ [[⟨3,3,2,1⟩]], some 4⟩).paths).length + 1
        = [[(⟨1,1,0,1⟩ : Point)], [⟨2,2,1,1⟩]].length
    ∧ [[(⟨1,1,0,1⟩ : Point)], [⟨2,2,1,1⟩]].getD 1 []
        ∈ (holdEraseTimerAction 0
            ⟨0, 0, [[⟨1,1,0,1⟩], [⟨2,2,1,1⟩]] ++ [[⟨3,3,2,1⟩]], some 4⟩).paths :=
  hold_erase_removes_exactly_pressed [[⟨1,1,0,1⟩], [⟨2,2,1,1⟩]] [⟨3,3,2,1⟩] 0 1 4 0 0
    (by decide) (by decide) (by decide)

/-- JSON values, the data exchanged with the `localStorage` string codec
(the platform `JSON.stringify` / `JSON.parse` pair is exact on JavaScript
numbers, so the round trip is modelled at the value level). -/
inductive Json where
  | null : Json
  | bool : Bool → Json
  | num : ℚ → Json
  | str : String → Json
  | arr : List Json → Json
  | obj : List (String × Json) → Json

/-- Serialisation of one point, as `JSON.stringify` lays out the object
literal `{x, y, t, p}`. -/
def pointToJson (pt : Point) : Json :=
  .obj [("x", .num pt.x), ("y", .num pt.y), ("t", .num pt.t), ("p", .num pt.p)]

/-- Serialisation of the whole drawing for the `paths` storage key:
`JSON.stringify(paths)` produces an array of arrays of point objects. -/
def pathsToJson (paths : List (List Point)) : Json :=
  .arr (paths.map (fun path => .arr (path.map pointToJson)))

/-- Reading back one point from the parsed JSON value (the `paths`
initialiser uses the parsed value as a `Point` without conversion, so the
reader demands exactly the serialised shape). -/
def jsonToPoint : Json → Option Point
  | .obj [("x", .num x), ("y", .num y), ("t", .num t), ("p", .num p)] =>
    some ⟨x, y, t, p⟩
  | _ => none

/-- Reading back a list of points. -/
def jsonToPoints : List Json → Option (List Point)
  | [] => some []
  | j :: rest => do
    let pt ← jsonToPoint j
    let pts ← jsonToPoints rest
    pure (pt :: pts)

/-- Reading back one stroke. -/
def jsonToPath : Json → Option (List Point)
  | .arr pts => jsonToPoints pts
  | _ => none

/-- Reading back a list of strokes. -/
def jsonToPathList : List Json → Option (List (List Point))
  | [] => some []
  | j :: rest => do
    let path ← jsonToPath j
    let paths ← jsonToPathList rest
    pure (path :: paths)

/-- Reading back the whole drawing: `JSON.parse(savedPathsString)`. -/
def jsonToPaths : Json → Option (List (List Point))
  | .arr ps => jsonToPathList ps
  | _ => none

/-- Decoding an encoded point restores it exactly. -/
theorem jsonToPoint_pointToJson (pt : Point) : jsonToPoint (pointToJson pt) = some pt :=
  rfl

/-- Decoding an encoded stroke restores it exactly. -/
theorem jsonToPoints_map_pointToJson (path : List Point) :
    jsonToPoints (path.map pointToJson) = some path := by
  induction path with
  | nil => rfl
  | cons pt rest ih =>
    simp [jsonToPoints, jsonToPoint_pointToJson, ih]

/-- C7: the persistence round trip is the identity on the drawing — for
every drawing, serialising it for the `paths` storage key and loading it
back reconstructs the same strokes in the same order with identical point
values. -/
theorem paths_persistence_roundtrip (paths : List (List Point)) :
    jsonToPaths (pathsToJson paths) = some paths := by
  show jsonToPathList (paths.map (fun path => .arr (path.map pointToJson))) = some paths
  induction paths with
  | nil => rfl
  | cons path rest ih =>
    simp [jsonToPathList, jsonToPath, jsonToPoints_map_pointToJson, ih]

/-- The accumulated polyline length of one stroke, as computed by the
noise filter inside `handleShareButtonClick` (lasso-erase variant): the
running sum of `((dx ** 2 + dy ** 2) ** (1/2))` over consecutive point
pairs, with `** (1/2)` modelled by the real square root. -/
noncomputable def pathLength (path : List Point) : ℝ :=
  (pathTolineSegments path).foldl
    (fun length seg =>
      length +
        Real.sqrt ((((seg.2.x - seg.1.x) ^ 2 + (seg.2.y - seg.1.y) ^ 2 : ℚ) : ℝ)))
    0

/-- `paths.filter((path) => { ... return length >= 8; })`: the noise
filter of the export pipeline. -/
noncomputable def noiseFilteredPaths : List (List Point) → List (List Point)
  | [] => []
  | path :: rest =>
    if 8 ≤ pathLength path then path :: noiseFilteredPaths rest
    else noiseFilteredPaths rest

/-- `const points = noiseFilteredPaths.flat()`. -/
noncomputable def exportPoints (paths : List (List Point)) : List Point :=
  (noiseFilteredPaths paths).flatten

/-- `const padding = 8` in `handleShareButtonClick`. -/
def padding : ℚ := 8

/-- `const canvasZoom = 8` in `handleShareButtonClick`. -/
def canvasZoom : ℚ := 8

/-- `points.reduce((a, b) => Math.min(a, b.x), Infinity) - padding`
(subtracting from `Infinity` leaves `Infinity`, hence the `map`). -/
noncomputable def exportMinX (paths : List (List Point)) : WithTop ℚ :=
  ((exportPoints paths).foldl (fun a b => min a ((b.x : ℚ) : WithTop ℚ)) ⊤).map
    (fun q => q - padding)

/-- `points.reduce((a, b) => Math.max(a, b.x), -Infinity) + padding`. -/
noncomputable def exportMaxX (paths : List (List Point)) : WithBot ℚ :=
  ((exportPoints paths).foldl (fun a b => max a ((b.x : ℚ) : WithBot ℚ)) ⊥).map
    (fun q => q + padding)

/-- `points.reduce((a, b) => Math.min(a, b.y), Infinity) - padding`. -/
noncomputable def exportMinY (paths : List (List Point)) : WithTop ℚ :=
  ((exportPoints paths).foldl (fun a b => min a ((b.y : ℚ) : WithTop ℚ)) ⊤).map
    (fun q => q - padding)

/-- `points.reduce((a, b) => Math.max(a, b.y), -Infinity) + padding`. -/
noncomputable def exportMaxY (paths : List (List Point)) : WithBot ℚ :=
  ((exportPoints paths).foldl (fun a b => max a ((b.y : ℚ) : WithBot ℚ)) ⊥).map
    (fun q => q + padding)

/-- The bitmap-space position of one point in the drawing loop:
`((point.x - minX) * canvasZoom, (point.y - minY) * canvasZoom)`. -/
def translatePoint (minX minY : ℚ) (pt : Point) : ℚ × ℚ :=
  ((pt.x - minX) * canvasZoom, (pt.y - minY) * canvasZoom)

/-- The polylines stroked onto the export bitmap: the loop
`for (const path of paths)` iterates over the FULL `paths` array, moving
to / lining to each translated point. -/
def drawnPolylines (minX minY : ℚ) (paths : List (List Point)) :
    List (List (ℚ × ℚ)) :=
  paths.map (fun path => path.map (translatePoint minX minY))

/-- The noise filter is idempotent. -/
theorem noiseFilteredPaths_idem (paths : List (List Point)) :
    noiseFilteredPaths (noiseFilteredPaths paths) = noiseFilteredPaths paths := by
  induction paths with
  | nil => rfl
  | cons path rest ih =>
    by_cases h : 8 ≤ pathLength path
    · rw [noiseFilteredPaths, if_pos h, noiseFilteredPaths, if_pos h, ih]
    · rw [noiseFilteredPaths, if_neg h, ih]

/-- A stroke shorter than the threshold never survives the noise filter. -/
theorem short_not_mem_noiseFilteredPaths (paths : List (List Point))
    (q : List Point) (hshort : pathLength q < 8) :
    q ∉ noiseFilteredPaths paths := by
  induction paths with
  | nil => simp [noiseFilteredPaths]
  | cons path rest ih =>
    by_cases h : 8 ≤ pathLength path
    · rw [noiseFilteredPaths, if_pos h]
      intro hmem
      rcases List.mem_cons.mp hmem with heq | htail
      · exact absurd (heq ▸ h) (not_le.mpr hshort)
      · exact ih htail
    · rw [noiseFilteredPaths, if_neg h]
      exact ih

/-- C8 (amended): sub-threshold strokes are excluded from the union
bounding box of the export (the four padded extrema are computed from the
noise-filtered points only, so re-filtering changes nothing), but every
stroke of the drawing — including a sub-threshold stroke `q` — is still
stroked onto the bitmap, one drawn polyline per stroke of the full
`paths` array. -/
theorem export_noise_filter_amended (paths : List (List Point)) (mx my : ℚ)
    (q : List Point) (hq : q ∈ paths) (hshort : pathLength q < 8) :
      exportMinX (noiseFilteredPaths paths) = exportMinX paths
    ∧ exportMaxX (noiseFilteredPaths paths) = exportMaxX paths
    ∧ exportMinY (noiseFilteredPaths paths) = exportMinY paths
    ∧ exportMaxY (noiseFilteredPaths paths) = exportMaxY paths
    ∧ (drawnPolylines mx my paths).length = paths.length
    ∧ q.map (translatePoint mx my) ∈ drawnPolylines mx my paths
    ∧ q ∉ noiseFilteredPaths paths := by
  refine ⟨?_, ?_, ?_, ?_, by simp [drawnPolylines], ?_, ?_⟩
  · unfold exportMinX exportPoints
    rw [noiseFilteredPaths_idem]
  · unfold exportMaxX exportPoints
    rw [noiseFilteredPaths_idem]
  · unfold exportMinY exportPoints
    rw [noiseFilteredPaths_idem]
  · unfold exportMaxY exportPoints
    rw [noiseFilteredPaths_idem]
  · exact List.mem_map_of_mem _ hq
  · exact short_not_mem_noiseFilteredPaths paths q hshort

/-- A long stroke (length 10) surviving the noise filter. -/
def longStroke : List Point := [⟨0,0,0,1⟩, ⟨10,0,1,1⟩]

/-- A short noise stroke (length 1) below the threshold. -/
def shortStroke : List Point := [⟨0,4,2,1⟩, ⟨1,4,3,1⟩]

/-- `pathLength longStroke = 10`. -/
theorem pathLength_longStroke : pathLength longStroke = 10 := by
  show (0 : ℝ) + Real.sqrt ((((10 - 0 : ℚ) ^ 2 + (0 - 0 : ℚ) ^ 2 : ℚ) : ℝ)) = 10
  rw [show (((10 - 0 : ℚ) ^ 2 + (0 - 0 : ℚ) ^ 2 : ℚ) : ℝ) = 10 ^ 2 by push_cast; norm_num,
    Real.sqrt_sq (by norm_num : (0:ℝ) ≤ 10)]
  norm_num

/-- `pathLength shortStroke = 1`. -/
theorem pathLength_shortStroke : pathLength shortStroke = 1 := by
  show (0 : ℝ) + Real.sqrt ((((1 - 0 : ℚ) ^ 2 + (4 - 4 : ℚ) ^ 2 : ℚ) : ℝ)) = 1
  rw [show (((1 - 0 : ℚ) ^ 2 + (4 - 4 : ℚ) ^ 2 : ℚ) : ℝ) = 1 ^ 2 by push_cast; norm_num,
    Real.sqrt_sq (by norm_num : (0:ℝ) ≤ 1)]
  norm_num

/-- The filter on the two-stroke example keeps only the long stroke. -/
theorem noiseFilteredPaths_example :
    noiseFilteredPaths [longStroke, shortStroke] = [longStroke] := by
  rw [noiseFilteredPaths, if_pos (by rw [pathLength_longStroke]; norm_num),
    noiseFilteredPaths, if_neg (by rw [pathLength_shortStroke]; norm_num),
    noiseFilteredPaths]

/-- Counterexample to C8: the sub-threshold `shortStroke` is excluded from
the bounding box computation (the filter keeps only `longStroke`, so the
padded minima come from `longStroke` alone), yet the drawing loop still
strokes it — the drawn polylines do not coincide with the drawn polylines
of the filtered strokes, refuting «the set of strokes rasterized onto the
export bitmap is exactly the set of strokes that survive the noise
filter». -/
theorem export_noise_filter_counterexample :
      noiseFilteredPaths [longStroke, shortStroke] = [longStroke]
    ∧ exportMinX [longStroke, shortStroke] = (((0 - 8 : ℚ)) : WithTop ℚ)
    ∧ exportMinY [longStroke, shortStroke] = (((0 - 8 : ℚ)) : WithTop ℚ)
    ∧ drawnPolylines (0 - 8) (0 - 8) [longStroke, shortStroke]
        ≠ drawnPolylines (0 - 8) (0 - 8) (noiseFilteredPaths [longStroke, shortStroke]) := by
  refine ⟨noiseFilteredPaths_example, ?_, ?_, ?_⟩
  · unfold exportMinX exportPoints
    rw [noiseFilteredPaths_example]
    simp only [longStroke, List.flatten, List.append_nil, List.foldl_cons, List.foldl_nil,
      min_top_left, ← WithTop.coe_min, WithTop.map_coe, WithTop.coe_eq_coe, padding]
    norm_num
  · unfold exportMinY exportPoints
    rw [noiseFilteredPaths_example]
    simp only [longStroke, List.flatten, List.append_nil, List.foldl_cons, List.foldl_nil,
      min_top_left, ← WithTop.coe_min, WithTop.map_coe, WithTop.coe_eq_coe, padding]
    norm_num
  · intro h
    have hlen := congrArg List.length h
    rw [noiseFilteredPaths_example] at hlen
    simp [drawnPolylines] at hlen

/-- Witness for the amended C8 at the two-stroke example: the extrema are
unchanged by re-filtering, both strokes are drawn, and the short stroke is
excluded from the filtered set. -/
theorem export_noise_filter_amended_witness :
      exportMinX (noiseFilteredPaths [longStroke, shortStroke])
        = exportMinX [longStroke, shortStroke]
    ∧ exportMaxX (noiseFilteredPaths [longStroke, shortStroke])
        = exportMaxX [longStroke, shortStroke]
    ∧ exportMinY (noiseFilteredPaths [longStroke, shortStroke])
        = exportMinY [longStroke, shortStroke]
    ∧ exportMaxY (noiseFilteredPaths [longStroke, shortStroke])
        = exportMaxY [longStroke, shortStroke]
    ∧ (drawnPolylines (0 - 8) (0 - 8) [longStroke, shortStroke]).length
        = [longStroke, shortStroke].length
    ∧ shortStroke.map (translatePoint (0 - 8) (0 - 8))
        ∈ drawnPolylines (0 - 8) (0 - 8) [longStroke, shortStroke]
    ∧ shortStroke ∉ noiseFilteredPaths [longStroke, shortStroke] :=
  export_noise_filter_amended [longStroke, shortStroke] (0 - 8) (0 - 8) shortStroke
    (by simp) (by rw [pathLength_shortStroke]; norm_num)

/-- One tick of the momentum scroller's decay:
`velocityXRef.current /= 1 + 1 / 64` (lasso-erase variant; the hold-erase
variant divides by the same kind of constant, `1.046875`). -/
def tickVelocity (velocityX : ℚ) : ℚ := velocityX / (1 + 1 / 64)

/-- Closed form of the iterated decay. -/
theorem tickVelocity_iterate (v : ℚ) (n : ℕ) :
    tickVelocity^[n] v = v / (1 + 1 / 64) ^ n := by
  induction n with
  | zero => simp
  | succ n ih =>
    rw [Function.iterate_succ_apply', ih, tickVelocity, div_div, pow_succ]

/-- C9 (amended): for `|v0| > 1`, the velocity after `n` ticks is
`v0 / (1 + 1/64)^n`, it never changes sign (its product with `v0` stays
positive), and its magnitude is below 1 exactly from tick
`⌊log |v0| / log (1 + 1/64)⌋ + 1` on — i.e. the first drop below 1
happens after `⌊log (1/|v0|) / log r⌋ + 1` ticks with `r = 1/(1 + 1/64)`,
which is `⌈log (1/v0) / log r⌉` except when that ratio is an integer,
where one extra tick is needed. -/
theorem momentum_decay_amended (v0 : ℚ) (n : ℕ) (h : 1 < |v0|) :
      tickVelocity^[n] v0 = v0 / (1 + 1 / 64) ^ n
    ∧ 0 < tickVelocity^[n] v0 * v0
    ∧ (|tickVelocity^[n] v0| < 1 ↔
        ⌊Real.log |(v0 : ℝ)| / Real.log (1 + 1 / 64)⌋ + 1 ≤ (n : ℤ)) := by
  have hc : (0 : ℚ) < 1 + 1 / 64 := by norm_num
  have hcp : (0 : ℚ) < (1 + 1 / 64) ^ n := pow_pos hc n
  have hit := tickVelocity_iterate v0 n
  have hv0 : v0 ≠ 0 := by
    intro h0
    rw [h0] at h
    norm_num at h
  have habs : (1 : ℝ) < |(v0 : ℝ)| := by
    rw [← Rat.cast_abs]
    exact_mod_cast h
  have habs0 : (0 : ℝ) < |(v0 : ℝ)| := lt_trans zero_lt_one habs
  have hD : (0 : ℝ) < Real.log (1 + 1 / 64) := Real.log_pos (by norm_num)
  refine ⟨hit, ?_, ?_⟩
  · have hsq : tickVelocity^[n] v0 * v0 = v0 ^ 2 / (1 + 1 / 64) ^ n := by
      rw [hit]; ring
    rw [hsq]
    exact div_pos (by positivity) hcp
  · have hchain : |tickVelocity^[n] v0| < 1 ↔ |v0| < (1 + 1 / 64 : ℚ) ^ n := by
      rw [hit, abs_div, abs_of_pos hcp, div_lt_one hcp]
    have hpowcast : (((1 + 1 / 64 : ℚ) ^ n : ℚ) : ℝ) = (1 + 1 / 64 : ℝ) ^ n := by
      push_cast
      norm_num
    have hcastiff : |v0| < (1 + 1 / 64 : ℚ) ^ n ↔
        |(v0 : ℝ)| < (1 + 1 / 64 : ℝ) ^ n := by
      rw [← hpowcast, ← Rat.cast_abs]
      exact Rat.cast_lt.symm
    have hlogiff : |(v0 : ℝ)| < (1 + 1 / 64 : ℝ) ^ n ↔
        Real.log |(v0 : ℝ)| < (n : ℝ) * Real.log (1 + 1 / 64) := by
      rw [← Real.log_lt_log_iff habs0 (by positivity), Real.log_pow]
    have hdiviff : Real.log |(v0 : ℝ)| < (n : ℝ) * Real.log (1 + 1 / 64) ↔
        Real.log |(v0 : ℝ)| / Real.log (1 + 1 / 64) < (n : ℝ) :=
      (div_lt_iff₀ hD).symm
    have hflooriff : Real.log |(v0 : ℝ)| / Real.log (1 + 1 / 64) < (n : ℝ) ↔
        ⌊Real.log |(v0 : ℝ)| / Real.log (1 + 1 / 64)⌋ < (n : ℤ) := by
      rw [Int.floor_lt]
      norm_num
    rw [hchain, hcastiff, hlogiff, hdiviff, hflooriff, Int.lt_iff_add_one_le]

/-- Witness for the amended C9 at `v0 = 2`, `n = 45`. -/
theorem momentum_decay_amended_witness :
      tickVelocity^[45] (2 : ℚ) = 2 / (1 + 1 / 64) ^ 45
    ∧ 0 < tickVelocity^[45] (2 : ℚ) * 2
    ∧ (|tickVelocity^[45] (2 : ℚ)| < 1 ↔
        ⌊Real.log |((2 : ℚ) : ℝ)| / Real.log (1 + 1 / 64)⌋ + 1 ≤ ((45 : ℕ) : ℤ)) :=
  momentum_decay_amended 2 45 (by norm_num)

/-- Counterexample to C9 as stated: at `v0 = 65/64` the claimed tick count
`⌈log (1/v0) / log r⌉` with `r = 1/(1 + 1/64)` evaluates to 1, but after
one tick the magnitude equals 1 — it has not yet dropped below 1 (that
happens one tick later). -/
theorem momentum_decay_counterexample :
      (1 : ℚ) < |(65 / 64 : ℚ)|
    ∧ (⌈Real.log (1 / ((65 / 64 : ℚ) : ℝ)) / Real.log (1 / (1 + 1 / 64))⌉ : ℤ) = 1
    ∧ ¬ |tickVelocity^[1] (65 / 64 : ℚ)| < 1
    ∧ |tickVelocity^[2] (65 / 64 : ℚ)| < 1 := by
  refine ⟨?_, ?_, ?_, ?_⟩
  · rw [abs_of_pos (by norm_num : (0 : ℚ) < 65 / 64)]
    norm_num
  · have harg : (1 / ((65 / 64 : ℚ) : ℝ)) = (1 / (1 + 1 / 64) : ℝ) := by
      push_cast
      norm_num
    have hlogne : Real.log (1 / (1 + 1 / 64) : ℝ) ≠ 0 := by
      rw [Ne, Real.log_eq_zero]
      push_neg
      norm_num
    rw [harg, div_self hlogne, Int.ceil_one]
  · rw [tickVelocity_iterate]
    norm_num
  · rw [tickVelocity_iterate]
    rw [abs_of_pos (by norm_num : (0 : ℚ) < 65 / 64 / (1 + 1 / 64) ^ 2)]
    norm_num

/-- C10: every erase operation preserves the relative z-order of the
surviving strokes.  The lasso-erase outcome is a `filter` of the existing
strokes and the hold-erase timer result is `take ++ dropLast ∘ drop`, so
both results are sublists of the input drawing — erasing only deletes,
never reorders. -/
theorem erase_preserves_z_order :
    (∀ (currentPath : List Point) (existingPaths : List (List Point)),
      (lassoEraseSurvivors currentPath existingPaths).Sublist existingPaths)
    ∧ ∀ (index : ℕ) (prevPaths : List (List Point)),
        (holdEraseOnTimeout index prevPaths).Sublist prevPaths := by
  constructor
  · intro currentPath existingPaths
    exact List.filter_sublist existingPaths
  · intro index prevPaths
    have hdl : ((prevPaths.drop (index + 1)).dropLast).Sublist (prevPaths.drop index) := by
      refine List.Sublist.trans (List.dropLast_sublist _) ?_
      have : prevPaths.drop (index + 1) = (prevPaths.drop index).tail := by
        rw [← List.drop_one, List.drop_drop]
      rw [this]
      exact List.tail_sublist _
    have happ : (prevPaths.take index ++ (prevPaths.drop (index + 1)).dropLast).Sublist
        (prevPaths.take index ++ prevPaths.drop index) :=
      List.Sublist.append (List.Sublist.refl _) hdl
    rw [List.take_append_drop] at happ
    exact happ
